import Mathlib

/-!
Shallow embedding of the document ingestion and retrieval core of
`src/scripts/retriever.py` (helper `_chunk_text` and class `Retriever`
with its methods `ingest`, `_add_batch` and `search`).

Modelling conventions:
* Python strings are Lean `String`; the character-level operations of the
  Python standard library used by the program (`str.split()`, `str.strip()`,
  `str.lower()`, `str.endswith`, `os.path.basename`, slicing `[-k:]`, and
  the regex substitution `re.sub(r"\s+", " ", c)`) are implemented over
  `List Char`, matching CPython semantics on the inputs the program sees.
* Python floats are modelled as `ℚ`; every fact proved about them here is
  an exact order or arithmetic fact, not a rounding fact.
* The external collaborators (the SentenceTransformer encoder, pypdf, the
  filesystem, the ChromaDB collection) are oracle parameters collected in
  `RetrieverEnv`.  A file read can raise, modelled by `Except String String`.
* `collection.add` of ChromaDB does not overwrite an id that is already
  present in the collection (it warns about the duplicate id and keeps the
  stored entry); `addBatch` models this skip-existing behaviour.
* A Python exception escaping `ingest` is modelled by returning
  `some errorMessage` next to the store state reached so far; the buffered
  but unflushed documents are lost, exactly as in the source, where the
  final `if docs: self._add_batch(...)` line is never reached.
-/

/-- Python `\s` / `str.isspace` test for a single character. -/
def isWs (c : Char) : Bool := c.isWhitespace

/-- Worker for `pySplit`: accumulates the current run of non-whitespace
characters (in reverse) and emits it when a whitespace character or the end
of the input is reached. -/
def pySplitGo : List Char → List Char → List (List Char)
  | [], acc => if acc.isEmpty then [] else [acc.reverse]
  | c :: rest, acc =>
    if isWs c then
      if acc.isEmpty then pySplitGo rest [] else acc.reverse :: pySplitGo rest []
    else
      pySplitGo rest (c :: acc)

/-- Python `str.split()` with no argument: split on runs of whitespace,
producing no empty words. -/
def pySplit (l : List Char) : List (List Char) := pySplitGo l []

/-- Python `" ".join(words)`. -/
def joinSp : List (List Char) → List Char
  | [] => []
  | [w] => w
  | w :: ws => w ++ ' ' :: joinSp ws

/-- Python slicing `s[-k:]`: for `k = 0` this is the whole string (CPython
quirk of `-0`), otherwise the last `min k (length s)` characters. -/
def pyTailSlice (l : List Char) (k : Nat) : List Char :=
  if k = 0 then l else l.drop (l.length - k)

/-- Python `sum(len(x)+1 for x in ws)`, the length estimate `_chunk_text`
keeps for the current window. -/
def lenEst (ws : List (List Char)) : Nat := (ws.map (fun w => w.length + 1)).sum

/-- Worker for `collapseWs`; the flag records whether the previous character
was whitespace (so that a whole run collapses to one space). -/
def collapseAux : Bool → List Char → List Char
  | _, [] => []
  | prevWs, c :: rest =>
    if isWs c then
      if prevWs then collapseAux true rest else ' ' :: collapseAux true rest
    else
      c :: collapseAux false rest

/-- Python `re.sub(r"\s+", " ", c)`: every maximal whitespace run becomes a
single space. -/
def collapseWs (l : List Char) : List Char := collapseAux false l

/-- Python `str.strip()`: drop whitespace from both ends. -/
def pyStrip (l : List Char) : List Char :=
  ((l.dropWhile isWs).reverse.dropWhile isWs).reverse

/-- Python `str.lower()` (ASCII case mapping, which is all the program
needs for its extension dispatch). -/
def pyLower (s : String) : String := String.mk (s.data.map Char.toLower)

/-- Python `str.endswith(suffix)`. -/
def strEndsWith (s suffix : String) : Bool := suffix.data.isSuffixOf s.data

/-- Python `os.path.basename`: everything after the last `/`. -/
def basename (p : String) : String :=
  String.mk ((p.data.reverse.takeWhile (fun c => c != '/')).reverse)

/-- Python `zip` of three lists (truncates to the shortest). -/
def zip3 {α β γ : Type*} : List α → List β → List γ → List (α × β × γ)
  | a :: as, b :: bs, c :: cs => (a, b, c) :: zip3 as bs cs
  | _, _, _ => []

/-- The loop state of `_chunk_text`: the emitted `chunks`, the `current`
window of words, and the running `length` estimate. -/
structure ChunkSt where
  chunks : List (List Char)
  current : List (List Char)
  length : Nat

/-- One iteration of the `for w in words` loop of `_chunk_text`
(`src/scripts/retriever.py` lines 27-32): flush the window when the
estimate would pass `max_chars`, seed the next window from the last
`overlap` characters of the flushed chunk, then append the word. -/
def chunkStep (maxChars overlap : Nat) (st : ChunkSt) (w : List Char) : ChunkSt :=
  if st.length + w.length + 1 > maxChars then
    let joined := joinSp st.current
    let back := pySplit (pyTailSlice joined overlap)
    ⟨st.chunks ++ [joined], back ++ [w], lenEst back + (w.length + 1)⟩
  else
    ⟨st.chunks, st.current ++ [w], st.length + (w.length + 1)⟩

/-- The function `_chunk_text(text, max_chars, overlap)` of `src/scripts/retriever.py`
lines 25-34.  The Python defaults are `max_chars=1200, overlap=150`; call
sites that use the defaults pass those literals here. -/
def _chunk_text (text : String) (maxChars overlap : Nat) : List String :=
  let words := pySplit text.data
  let st := words.foldl (chunkStep maxChars overlap) ⟨[], [], 0⟩
  let allChunks := if st.current.isEmpty then st.chunks else st.chunks ++ [joinSp st.current]
  ((allChunks.filter (fun c => !(pyStrip c).isEmpty)).map
    (fun c => pyStrip (collapseWs c))).map String.mk

example : _chunk_text "a b c d e f g h" 5 2 =
    ["a b", "b c", "c d", "d e", "e f", "f g", "g h"] := by decide

example : _chunk_text "a b c d e f g h" 1200 150 = ["a b c d e f g h"] := by decide

example : _chunk_text "" 1200 150 = [] := by decide

example : _chunk_text "x y z" 1200 150 = ["x y z"] := by decide

example : _chunk_text "aaaaaaaaaa" 5 2 = ["aaaaaaaaaa"] := by decide

/-- One stored chunk of the ChromaDB collection `pranay_chunks`: its id,
its embedding vector, its document text, and its `source` metadata value. -/
structure Entry where
  id : String
  emb : List ℚ
  doc : String
  source : String
deriving DecidableEq

/-- The state of the ChromaDB collection, as the list of stored entries in
insertion order. -/
abbrev Store := List Entry

/-- The method `Retriever._add_batch` (lines 74-76): embed the documents and call
`collection.add`.  ChromaDB's `add` skips any id that already exists in
the collection (duplicate-id warning), so an existing entry is kept. -/
def addBatch (embedFn : String → List ℚ) (store : Store) (ids docs metas : List String) : Store :=
  (zip3 ids docs metas).foldl
    (fun s t =>
      if s.any (fun e => e.id == t.1) then s
      else s ++ [⟨t.1, embedFn t.2.1, t.2.1, t.2.2⟩])
    store

/-- The external collaborators of `Retriever`: the SentenceTransformer
encoder (`self.model.encode`, applied per text), `_read_pdf` (pypdf plus
the filesystem) and `_read_text_file` (the filesystem).  Reads can raise,
hence `Except`. -/
structure RetrieverEnv where
  embedFn : String → List ℚ
  readPdf : String → Except String String
  readText : String → Except String String

/-- The chunk id built at line 66: `f"{os.path.basename(path)}-{i}"`. -/
def chunkId (path : String) (i : Nat) : String := basename path ++ "-" ++ toString i

/-- The `source` metadata value built at line 65: `os.path.basename(path)`. -/
def chunkSource (path : String) : String := basename path

/-- Lines 63-66 for one file: enumerate the chunks of the content (chunked
with the Python default parameters `1200, 150`) and build the per-chunk
`(id, document, source)` triples in order. -/
def fileTriples (path content : String) : List (String × String × String) :=
  ((_chunk_text content 1200 150).enum).map (fun p => (chunkId path p.1, p.2, chunkSource path))

/-- The mutable state of `Retriever.ingest`: the `docs, metas, ids`
buffers and the collection. -/
structure BufSt where
  docs : List String
  metas : List String
  ids : List String
  store : Store

/-- Lines 63-70 for one chunk: append to the three buffers and flush a
batch once 256 documents are buffered. -/
def pushChunk (embedFn : String → List ℚ) (st : BufSt) (t : String × String × String) : BufSt :=
  let st2 : BufSt := ⟨st.docs ++ [t.2.1], st.metas ++ [t.2.2], st.ids ++ [t.1], st.store⟩
  if 256 ≤ st2.docs.length then
    ⟨[], [], [], addBatch embedFn st2.store st2.ids st2.docs st2.metas⟩
  else
    st2

/-- One iteration of the `for path in paths` loop of `ingest`
(lines 54-70): dispatch on the lower-cased path's extension, read the
file (a failed read raises, carried as `some message`), skip any other
extension (`continue`), and push every chunk of the content. -/
def processPath (env : RetrieverEnv) (st : BufSt) (path : String) : BufSt × Option String :=
  if strEndsWith (pyLower path) ".pdf" then
    match env.readPdf path with
    | Except.error e => (st, some e)
    | Except.ok content => ((fileTriples path content).foldl (pushChunk env.embedFn) st, none)
  else if strEndsWith (pyLower path) ".txt" || strEndsWith (pyLower path) ".md" ||
      strEndsWith (pyLower path) ".markdown" then
    match env.readText path with
    | Except.error e => (st, some e)
    | Except.ok content => ((fileTriples path content).foldl (pushChunk env.embedFn) st, none)
  else
    (st, none)

/-- The `for path in paths` loop: an exception from any iteration aborts
the loop and propagates. -/
def ingestLoop (env : RetrieverEnv) : List String → BufSt → BufSt × Option String
  | [], st => (st, none)
  | p :: ps, st =>
    match processPath env st p with
    | (st2, none) => ingestLoop env ps st2
    | (st2, some e) => (st2, some e)

/-- The method `Retriever.ingest` (lines 52-76) acting on an initial collection
state: returns the final collection state and the escaped exception
message, if any.  The final `if docs: self._add_batch(...)` flush only
runs when no exception escaped the loop. -/
def ingest (env : RetrieverEnv) (paths : List String) (store : Store) : Store × Option String :=
  match ingestLoop env paths ⟨[], [], [], store⟩ with
  | (b, some e) => (b.store, some e)
  | (b, none) =>
    (if b.docs.isEmpty then b.store else addBatch env.embedFn b.store b.ids b.docs b.metas, none)

/-- The result type of `search` (the `DocChunk` dataclass of lines 12-15,
with its metadata dict flattened into the `source` and `score` fields the
code stores in it at lines 88-96). -/
structure DocChunk where
  text : String
  source : String
  score : Option ℚ
deriving DecidableEq

/-- The reply of `collection.query` as consumed at lines 83-85: the first
row of `documents`, `metadatas` (each dict reduced to its optional
`source` value) and `distances` (each entry an optional distance). -/
structure QueryReply where
  documents : List String
  metadatas : List (Option String)
  distances : List (Option ℚ)

/-- Lines 86-97: zip the three reply columns (Python `zip` truncates to
the shortest) and build one `DocChunk` per row, with
`score = 1.0 - dist if dist is not None else None` and
`source = meta.get("source", "unknown")`. -/
def searchResults (res : QueryReply) : List DocChunk :=
  (zip3 res.documents res.metadatas res.distances).map
    (fun t => ⟨t.1, (t.2.1).getD "unknown", (t.2.2).map (fun d => 1 - d)⟩)

/-- The method `Retriever.search` (lines 78-97), with the collection's
nearest-neighbour index as the oracle `storeQuery`.  The second component
counts the calls made to the embedding provider (`self._embed`), making
the side effect of line 81 observable. -/
def search (embedFn : String → List ℚ) (storeQuery : List ℚ → Nat → QueryReply)
    (query : String) (k : Nat) : List DocChunk × Nat :=
  if (pyStrip query.data).isEmpty then
    ([], 0)
  else
    (searchResults (storeQuery (embedFn query) k), 1)

example : basename "docs/f.txt" = "f.txt" := by decide

example : strEndsWith (pyLower "A/B.TXT") ".txt" = true := by decide

theorem zip3_length_le₁ {α β γ : Type*} :
    ∀ (a : List α) (b : List β) (c : List γ), (zip3 a b c).length ≤ a.length
  | a :: as, b :: bs, c :: cs => by
    simpa [zip3] using Nat.succ_le_succ (zip3_length_le₁ as bs cs)
  | [], _, _ => by simp [zip3]
  | _ :: _, [], _ => by simp [zip3]
  | _ :: _, _ :: _, [] => by simp [zip3]

theorem zip3_length_le₂ {α β γ : Type*} :
    ∀ (a : List α) (b : List β) (c : List γ), (zip3 a b c).length ≤ b.length
  | a :: as, b :: bs, c :: cs => by
    simpa [zip3] using Nat.succ_le_succ (zip3_length_le₂ as bs cs)
  | [], _, _ => by simp [zip3]
  | _ :: _, [], _ => by simp [zip3]
  | _ :: _, _ :: _, [] => by simp [zip3]

theorem zip3_length_le₃ {α β γ : Type*} :
    ∀ (a : List α) (b : List β) (c : List γ), (zip3 a b c).length ≤ c.length
  | a :: as, b :: bs, c :: cs => by
    simpa [zip3] using Nat.succ_le_succ (zip3_length_le₃ as bs cs)
  | [], _, _ => by simp [zip3]
  | _ :: _, [], _ => by simp [zip3]
  | _ :: _, _ :: _, [] => by simp [zip3]

theorem zip3_get {α β γ : Type*} :
    ∀ (a : List α) (b : List β) (c : List γ) (i : Nat)
      (h : i < (zip3 a b c).length) (ha : i < a.length) (hb : i < b.length) (hc : i < c.length),
      (zip3 a b c).get ⟨i, h⟩ = (a.get ⟨i, ha⟩, b.get ⟨i, hb⟩, c.get ⟨i, hc⟩)
  | a :: as, b :: bs, c :: cs, 0, _, _, _, _ => rfl
  | a :: as, b :: bs, c :: cs, i + 1, h, ha, hb, hc => by
    have h' : i < (zip3 as bs cs).length := by simpa [zip3] using h
    have ha' : i < as.length := by simp at ha; omega
    have hb' : i < bs.length := by simp at hb; omega
    have hc' : i < cs.length := by simp at hc; omega
    simpa [zip3] using zip3_get as bs cs i h' ha' hb' hc'
  | [], _, _, i, h, _, _, _ => absurd h (by simp [zip3])
  | _ :: _, [], _, i, h, _, _, _ => absurd h (by simp [zip3])
  | _ :: _, _ :: _, [], i, h, _, _, _ => absurd h (by simp [zip3])

theorem zip3_map_third {α β γ δ : Type*} (g : γ → δ) :
    ∀ (a : List α) (b : List β) (c : List γ), a.length = c.length → b.length = c.length →
      (zip3 a b c).map (fun t => g t.2.2) = c.map g := by
  intro a
  induction a with
  | nil =>
    intro b c h1 h2
    have : c = [] := by cases c <;> simp_all
    subst this
    simp [zip3]
  | cons x as ih =>
    intro b c h1 h2
    cases c with
    | nil => simp at h1
    | cons y cs =>
      cases b with
      | nil => simp at h2
      | cons z bs =>
        simp only [zip3, List.map_cons]
        rw [ih bs cs (by simpa using h1) (by simpa using h2)]

/-- Claim C9: a query that is empty or all whitespace makes `search` return
the empty result list without invoking the embedding provider (the call
counter stays at zero). -/
theorem search_blank_query (embedFn : String → List ℚ) (storeQuery : List ℚ → Nat → QueryReply)
    (query : String) (k : Nat) (h : (pyStrip query.data).isEmpty = true) :
    search embedFn storeQuery query k = ([], 0) := by
  simp [search, h]

theorem search_blank_query_witness :
    search (fun _ => []) (fun _ _ => ⟨[], [], []⟩) "  " 5 = ([], 0) :=
  search_blank_query (fun _ => []) (fun _ _ => ⟨[], [], []⟩) "  " 5 (by decide)

/-- Claim C6: for every row of the store's reply that makes it into the
result list, the returned text is that row's document and the returned
score is `1 - d` when the row's distance is `d`, and `none` when the row
has no distance — a score is never fabricated. -/
theorem search_score_from_distance (docs : List String) (metas : List (Option String))
    (dists : List (Option ℚ)) (i : Nat)
    (hout : i < (searchResults ⟨docs, metas, dists⟩).length) :
    ∃ (hdoc : i < docs.length) (hdist : i < dists.length),
      ((searchResults ⟨docs, metas, dists⟩).get ⟨i, hout⟩).text = docs.get ⟨i, hdoc⟩ ∧
      ((searchResults ⟨docs, metas, dists⟩).get ⟨i, hout⟩).score =
        (dists.get ⟨i, hdist⟩).map (fun d => 1 - d) := by
  have hz : i < (zip3 docs metas dists).length := by
    simpa [searchResults] using hout
  have hdoc : i < docs.length := lt_of_lt_of_le hz (zip3_length_le₁ docs metas dists)
  have hmeta : i < metas.length := lt_of_lt_of_le hz (zip3_length_le₂ docs metas dists)
  have hdist : i < dists.length := lt_of_lt_of_le hz (zip3_length_le₃ docs metas dists)
  refine ⟨hdoc, hdist, ?_⟩
  have hget : (searchResults ⟨docs, metas, dists⟩).get ⟨i, hout⟩ =
      (fun t : String × Option String × Option ℚ =>
          DocChunk.mk t.1 ((t.2.1).getD "unknown") ((t.2.2).map (fun d => 1 - d)))
        ((zip3 docs metas dists).get ⟨i, hz⟩) := by
    simp [searchResults, List.get_eq_getElem, List.getElem_map]
  rw [hget, zip3_get docs metas dists i hz hdoc hmeta hdist]
  exact ⟨rfl, rfl⟩

theorem search_score_from_distance_witness :
    ∃ (hdoc : 0 < (["d1", "d2"] : List String).length)
      (hdist : 0 < ([some (0 : ℚ), none] : List (Option ℚ)).length),
      ((searchResults ⟨["d1", "d2"], [some "s", none], [some (0 : ℚ), none]⟩).get
          ⟨0, by decide⟩).text = (["d1", "d2"] : List String).get ⟨0, hdoc⟩ ∧
      ((searchResults ⟨["d1", "d2"], [some "s", none], [some (0 : ℚ), none]⟩).get
          ⟨0, by decide⟩).score =
        (([some (0 : ℚ), none] : List (Option ℚ)).get ⟨0, hdist⟩).map (fun d => 1 - d) :=
  search_score_from_distance ["d1", "d2"] [some "s", none] [some (0 : ℚ), none] 0 (by decide)

/-- Claim C8: when every returned row carries a distance and the distances
are in non-decreasing order, the scores `1 - d` across the ranked list are
non-increasing (most similar first). -/
theorem search_scores_monotone (docs : List String) (metas : List (Option String)) (ds : List ℚ)
    (h1 : docs.length = ds.length) (h2 : metas.length = ds.length)
    (hmono : ds.Pairwise (fun x y => x ≤ y)) :
    ((searchResults ⟨docs, metas, ds.map (fun d => some d)⟩).map (fun dc => dc.score)).Pairwise
      (fun a b => ∃ x y, a = some x ∧ b = some y ∧ y ≤ x) := by
  have hs : (searchResults ⟨docs, metas, ds.map (fun d => some d)⟩).map (fun dc => dc.score) =
      ds.map (fun d => some (1 - d)) := by
    have h3 := zip3_map_third (fun o : Option ℚ => o.map (fun d => 1 - d)) docs metas
      (ds.map (fun d => some d)) (by simpa using h1) (by simpa using h2)
    simp only [searchResults, List.map_map]
    simpa [List.map_map] using h3
  rw [hs, List.pairwise_map]
  refine hmono.imp ?_
  intro a b hab
  exact ⟨1 - a, 1 - b, rfl, rfl, by linarith⟩

theorem search_scores_monotone_witness :
    ((searchResults ⟨["d1", "d2"], [none, none],
        ([0, 1] : List ℚ).map (fun d => some d)⟩).map (fun dc => dc.score)).Pairwise
      (fun a b => ∃ x y, a = some x ∧ b = some y ∧ y ≤ x) :=
  search_scores_monotone ["d1", "d2"] [none, none] [0, 1] (by decide) (by decide) (by decide)


/-- Claim C2 as stated is false: the chunker is character-budget based, not
token-window based.  Instantiating its two numeric parameters with 5 and 2
on "a b c d e f g h" yields seven two-word chunks, not the claimed pair of
five-token windows. -/
theorem chunk_window_counterexample :
    _chunk_text "a b c d e f g h" 5 2 = ["a b", "b c", "c d", "d e", "e f", "f g", "g h"] ∧
    _chunk_text "a b c d e f g h" 5 2 ≠ ["a b c d e", "d e f g h"] :=
  ⟨by decide, by decide⟩

/-- Claim C2 amended: `_chunk_text` splits on whitespace (discarding the
whitespace), greedily packs words into chunks under a character budget
(default 1200) with a character-based overlap (default 150) carried from
each flushed chunk into the next; with parameters 5 and 2 on
"a b c d e f g h" the chunks are the seven two-word windows, and with the
default parameters the whole input is one chunk. -/
theorem chunk_text_behaviour :
    _chunk_text "a b c d e f g h" 5 2 = ["a b", "b c", "c d", "d e", "e f", "f g", "g h"] ∧
    _chunk_text "a b c d e f g h" 1200 150 = ["a b c d e f g h"] :=
  ⟨by decide, by decide⟩

/-- Claim C3 as stated is false: the id namespace is not derived from the
lower-cased filename (nor from a hash of it) — two filenames equal after
lower-casing produce different id sequences, because line 66 uses the
case-preserved `os.path.basename(path)` directly. -/
theorem chunk_id_case_counterexample :
    pyLower "A.txt" = pyLower "a.txt" ∧
    (fileTriples "A.txt" "hello").map (fun t => t.1) = ["A.txt-0"] ∧
    (fileTriples "a.txt" "hello").map (fun t => t.1) = ["a.txt-0"] ∧
    ("A.txt-0" : String) ≠ "a.txt-0" :=
  ⟨by decide, by decide, by decide, by decide⟩

/-- Claim C3 amended: the id of chunk `i` of a file is deterministically
`{basename}-{i}` with the case-preserved basename of the path (no hashing,
no lower-casing); re-ingesting the same filename with the same content
therefore reproduces exactly the same id sequence. -/
theorem chunk_id_scheme (p c : String) :
    (fileTriples p c).map (fun t => t.1) =
      (List.range (_chunk_text c 1200 150).length).map (chunkId p) := by
  unfold fileTriples
  rw [List.map_map, ← List.enum_map_fst (_chunk_text c 1200 150), List.map_map]
  rfl

example : (fileTriples "docs/f.txt" "hello world").map (fun t => t.1) = ["f.txt-0"] := by decide

theorem fileTriples_get_id (p c : String) (i : Nat) (h : i < (fileTriples p c).length) :
    ((fileTriples p c).get ⟨i, h⟩).1 = chunkId p i := by
  simp [fileTriples, List.get_eq_getElem, List.getElem_map, List.getElem_enum]

theorem fileTriples_get_source (p c : String) (i : Nat) (h : i < (fileTriples p c).length) :
    ((fileTriples p c).get ⟨i, h⟩).2.2 = chunkSource p := by
  simp [fileTriples, List.get_eq_getElem, List.getElem_map, List.getElem_enum]

/-- Claim C10: the chunk id and the `source` metadata value generated at
any ordinal depend only on the basename of the path — not on its directory
and not on the file's content.  Two paths with equal basenames generate
identical ids and identical source values at every common ordinal. -/
theorem ids_depend_only_on_basename (p₁ p₂ c₁ c₂ : String)
    (hb : basename p₁ = basename p₂) (i : Nat)
    (h₁ : i < (fileTriples p₁ c₁).length) (h₂ : i < (fileTriples p₂ c₂).length) :
    ((fileTriples p₁ c₁).get ⟨i, h₁⟩).1 = ((fileTriples p₂ c₂).get ⟨i, h₂⟩).1 ∧
    ((fileTriples p₁ c₁).get ⟨i, h₁⟩).2.2 = ((fileTriples p₂ c₂).get ⟨i, h₂⟩).2.2 := by
  rw [fileTriples_get_id, fileTriples_get_id, fileTriples_get_source, fileTriples_get_source]
  exact ⟨by simp [chunkId, hb], by simp [chunkSource, hb]⟩

theorem ids_depend_only_on_basename_witness :
    ((fileTriples "docs/f.txt" "a").get ⟨0, by decide⟩).1 =
      ((fileTriples "other/dir/f.txt" "b c").get ⟨0, by decide⟩).1 ∧
    ((fileTriples "docs/f.txt" "a").get ⟨0, by decide⟩).2.2 =
      ((fileTriples "other/dir/f.txt" "b c").get ⟨0, by decide⟩).2.2 :=
  ids_depend_only_on_basename "docs/f.txt" "other/dir/f.txt" "a" "b c" (by decide) 0
    (by decide) (by decide)

theorem foldl_addEntry_mem (f : String → List ℚ) (e : Entry) :
    ∀ (l : List (String × String × String)) (s : Store), e ∈ s →
      e ∈ l.foldl
        (fun s t =>
          if s.any (fun en => en.id == t.1) then s
          else s ++ [⟨t.1, f t.2.1, t.2.1, t.2.2⟩]) s := by
  intro l
  induction l with
  | nil => intro s he; simpa using he
  | cons t l ih =>
    intro s he
    simp only [List.foldl_cons]
    by_cases h : (s.any (fun en => en.id == t.1)) = true
    · rw [if_pos h]; exact ih s he
    · rw [if_neg h]; exact ih _ (List.mem_append_left _ he)

theorem addBatch_mem (f : String → List ℚ) (s : Store) (ids docs metas : List String)
    (e : Entry) (he : e ∈ s) : e ∈ addBatch f s ids docs metas :=
  foldl_addEntry_mem f e (zip3 ids docs metas) s he

theorem pushChunk_store_mem (f : String → List ℚ) (st : BufSt) (t : String × String × String)
    (e : Entry) (he : e ∈ st.store) : e ∈ (pushChunk f st t).store := by
  unfold pushChunk
  by_cases h : 256 ≤ (st.docs ++ [t.2.1]).length
  · simp only [h, if_pos, if_true]
    exact addBatch_mem f st.store _ _ _ e he
  · simp only [if_neg h]
    exact he

theorem foldl_pushChunk_mem (f : String → List ℚ) (e : Entry) :
    ∀ (l : List (String × String × String)) (b : BufSt), e ∈ b.store →
      e ∈ (l.foldl (pushChunk f) b).store := by
  intro l
  induction l with
  | nil => intro b hb; simpa using hb
  | cons t l ih =>
    intro b hb
    simp only [List.foldl_cons]
    exact ih _ (pushChunk_store_mem f b t e hb)

theorem processPath_store_mem (env : RetrieverEnv) (b : BufSt) (p : String)
    (e : Entry) (he : e ∈ b.store) : e ∈ (processPath env b p).1.store := by
  unfold processPath
  split
  · cases hr : env.readPdf p with
    | error msg => simp [hr]; exact he
    | ok content => simp [hr]; exact foldl_pushChunk_mem env.embedFn e _ b he
  · split
    · cases hr : env.readText p with
      | error msg => simp [hr]; exact he
      | ok content => simp [hr]; exact foldl_pushChunk_mem env.embedFn e _ b he
    · exact he

theorem ingestLoop_store_mem (env : RetrieverEnv) (e : Entry) :
    ∀ (ps : List String) (b : BufSt), e ∈ b.store → e ∈ (ingestLoop env ps b).1.store := by
  intro ps
  induction ps with
  | nil => intro b hb; simpa [ingestLoop] using hb
  | cons p ps ih =>
    intro b hb
    have hmem : e ∈ (processPath env b p).1.store := processPath_store_mem env b p e hb
    simp only [ingestLoop]
    cases hq : processPath env b p with
    | mk st2 o =>
      rw [hq] at hmem
      cases o with
      | none => exact ih st2 hmem
      | some msg => exact hmem

/-- Claim C1 amended: `ingest` never deletes — every entry present in the
collection before an ingestion is still present afterwards, whatever the
paths and file contents are.  Re-ingesting a filename therefore merges by
id with first-write-wins instead of replacing: chunks of the first
ingestion remain in the store. -/
theorem ingest_never_deletes (env : RetrieverEnv) (paths : List String) (st : Store)
    (e : Entry) (he : e ∈ st) : e ∈ (ingest env paths st).fst := by
  unfold ingest
  have hb : e ∈ (⟨[], [], [], st⟩ : BufSt).store := he
  have hmem : e ∈ (ingestLoop env paths ⟨[], [], [], st⟩).1.store :=
    ingestLoop_store_mem env e paths _ hb
  cases hl : ingestLoop env paths ⟨[], [], [], st⟩ with
  | mk b o =>
    rw [hl] at hmem
    cases o with
    | some msg => exact hmem
    | none =>
      by_cases hd : b.docs.isEmpty = true
      · simp [hd]; exact hmem
      · simp [hd]; exact addBatch_mem env.embedFn b.store _ _ _ e hmem

def entC1 : Entry := ⟨"old.txt-0", [], "old text", "old.txt"⟩

def envC1 : RetrieverEnv :=
  ⟨fun _ => [], fun _ => Except.error "pdf boom", fun _ => Except.ok "x y z"⟩

theorem ingest_never_deletes_witness : entC1 ∈ (ingest envC1 ["f.txt"] [entC1]).fst :=
  ingest_never_deletes envC1 ["f.txt"] [entC1] entC1 (by decide)

def envC1second : RetrieverEnv :=
  ⟨fun _ => [], fun _ => Except.error "pdf boom", fun _ => Except.ok ""⟩

/-- Claim C1 as stated is false: re-ingesting `f.txt` whose content changed
from "x y z" (one chunk) to "" (zero chunks) leaves the first ingestion's
chunk in the store — there is no delete-before-insert, so the store does
not contain exactly the chunks of the second content. -/
theorem reingest_residue_counterexample :
    (ingest envC1second ["f.txt"] (ingest envC1 ["f.txt"] []).fst).fst =
      [⟨"f.txt-0", [], "x y z", "f.txt"⟩] ∧
    _chunk_text "" 1200 150 = [] :=
  ⟨by decide, by decide⟩

theorem ingestLoop_stop_at_failed_read (env : RetrieverEnv) (bad msg : String)
    (hp : strEndsWith (pyLower bad) ".pdf" = false)
    (ht : (strEndsWith (pyLower bad) ".txt" || strEndsWith (pyLower bad) ".md" ||
        strEndsWith (pyLower bad) ".markdown") = true)
    (he : env.readText bad = Except.error msg) :
    ∀ (pre post₁ post₂ : List String) (b : BufSt),
      ingestLoop env (pre ++ bad :: post₁) b = ingestLoop env (pre ++ bad :: post₂) b := by
  intro pre
  induction pre with
  | nil =>
    intro post₁ post₂ b
    simp [ingestLoop, processPath, hp, ht, he]
  | cons q pre ih =>
    intro post₁ post₂ b
    simp only [List.cons_append, ingestLoop]
    cases hq : processPath env b q with
    | mk st2 o =>
      cases o with
      | none => exact ih post₁ post₂ st2
      | some m => rfl

/-- Claim C4 amended: a failing file read raises to the caller and aborts
the batch — nothing after the failing file is processed (the result of
`ingest` does not depend on the paths that follow it), and no per-file
status report exists. -/
theorem read_failure_aborts_batch (env : RetrieverEnv) (bad msg : String)
    (hp : strEndsWith (pyLower bad) ".pdf" = false)
    (ht : (strEndsWith (pyLower bad) ".txt" || strEndsWith (pyLower bad) ".md" ||
        strEndsWith (pyLower bad) ".markdown") = true)
    (he : env.readText bad = Except.error msg)
    (pre post₁ post₂ : List String) (st : Store) :
    ingest env (pre ++ bad :: post₁) st = ingest env (pre ++ bad :: post₂) st := by
  unfold ingest
  rw [ingestLoop_stop_at_failed_read env bad msg hp ht he pre post₁ post₂]

def envC4 : RetrieverEnv :=
  ⟨fun _ => [], fun _ => Except.error "pdf boom",
   fun p => if p = "bad.txt" then Except.error "boom" else Except.ok "hello"⟩

theorem read_failure_aborts_batch_witness :
    ingest envC4 (["a.txt"] ++ "bad.txt" :: ["b.txt"]) [] =
      ingest envC4 (["a.txt"] ++ "bad.txt" :: []) [] :=
  read_failure_aborts_batch envC4 "bad.txt" "boom" (by decide) (by decide) rfl
    ["a.txt"] ["b.txt"] [] []

/-- Claim C4 as stated is false: with `bad.txt` unreadable and `b.txt`
readable with chunkable content, `ingest` raises the read error to the
caller (an escaped exception, no per-file report) and leaves the readable
file unprocessed — the store stays empty although `b.txt` would have
produced a chunk. -/
theorem ingest_error_counterexample :
    ingest envC4 ["bad.txt", "b.txt"] [] = ([], some "boom") ∧
    _chunk_text "hello" 1200 150 = ["hello"] :=
  ⟨by decide, by decide⟩

theorem ingestLoop_skips_unknown_extension (env : RetrieverEnv) (p : String)
    (h1 : strEndsWith (pyLower p) ".pdf" = false)
    (h2 : strEndsWith (pyLower p) ".txt" = false)
    (h3 : strEndsWith (pyLower p) ".md" = false)
    (h4 : strEndsWith (pyLower p) ".markdown" = false) :
    ∀ (pre post : List String) (b : BufSt),
      ingestLoop env (pre ++ p :: post) b = ingestLoop env (pre ++ post) b := by
  intro pre
  induction pre with
  | nil =>
    intro post b
    simp [ingestLoop, processPath, h1, h2, h3, h4]
  | cons q pre ih =>
    intro post b
    simp only [List.cons_append, ingestLoop]
    cases hq : processPath env b q with
    | mk st2 o =>
      cases o with
      | none => exact ih post st2
      | some m => rfl

/-- Claim C5 amended: a file whose (lower-cased) name ends in none of
`.pdf`, `.txt`, `.md`, `.markdown` is skipped entirely by `ingest`
(`continue` at line 61): it is never read and contributes no chunks, so
ingestion behaves as if the path were absent from the batch. -/
theorem unknown_extension_skipped (env : RetrieverEnv) (p : String)
    (h1 : strEndsWith (pyLower p) ".pdf" = false)
    (h2 : strEndsWith (pyLower p) ".txt" = false)
    (h3 : strEndsWith (pyLower p) ".md" = false)
    (h4 : strEndsWith (pyLower p) ".markdown" = false)
    (pre post : List String) (st : Store) :
    ingest env (pre ++ p :: post) st = ingest env (pre ++ post) st := by
  unfold ingest
  rw [ingestLoop_skips_unknown_extension env p h1 h2 h3 h4 pre post]

def envC5 : RetrieverEnv :=
  ⟨fun _ => [], fun _ => Except.error "pdf boom", fun _ => Except.ok "hello world"⟩

theorem unknown_extension_skipped_witness :
    ingest envC5 ([] ++ "notes.docx" :: []) [] = ingest envC5 ([] ++ []) [] :=
  unknown_extension_skipped envC5 "notes.docx" (by decide) (by decide) (by decide) (by decide)
    [] [] []

/-- Claim C5 as stated is false: a `.docx` file whose text reads as the
non-empty "hello world" (which chunks to one chunk) contributes nothing to
the store — the file is skipped, not treated as plain text. -/
theorem unknown_ext_counterexample :
    (ingest envC5 ["notes.docx"] []).fst = [] ∧
    _chunk_text "hello world" 1200 150 = ["hello world"] :=
  ⟨by decide, by decide⟩

theorem isWs_space : isWs ' ' = true := by decide

theorem collapseAux_length : ∀ (f : Bool) (l : List Char),
    (collapseAux f l).length ≤ l.length := by
  intro f l
  induction l generalizing f with
  | nil => simp [collapseAux]
  | cons c rest ih =>
    have h1 := ih true
    have h2 := ih false
    by_cases h : isWs c = true <;> cases f <;> simp [collapseAux, h] <;> omega

theorem collapseAux_all_isWs : ∀ (f : Bool) (l : List Char),
    (collapseAux f l).all isWs = l.all isWs := by
  intro f l
  induction l generalizing f with
  | nil => simp [collapseAux]
  | cons c rest ih =>
    have h1 := ih true
    have h2 := ih false
    by_cases h : isWs c = true <;> cases f <;> simp [collapseAux, h, h1, h2, isWs_space]

theorem pyStrip_length_le (l : List Char) : (pyStrip l).length ≤ l.length := by
  unfold pyStrip
  calc (((l.dropWhile isWs).reverse.dropWhile isWs).reverse).length
      = ((l.dropWhile isWs).reverse.dropWhile isWs).length := by simp
    _ ≤ (l.dropWhile isWs).reverse.length := (List.dropWhile_sublist isWs).length_le
    _ = (l.dropWhile isWs).length := by simp
    _ ≤ l.length := (List.dropWhile_sublist isWs).length_le

theorem pyStrip_eq_nil_iff (l : List Char) : pyStrip l = [] ↔ ∀ x ∈ l, isWs x := by
  unfold pyStrip
  rw [List.reverse_eq_nil_iff, List.dropWhile_eq_nil_iff]
  constructor
  · intro h x hx
    have hx2 : x ∈ l.takeWhile isWs ++ l.dropWhile isWs := by
      rw [List.takeWhile_append_dropWhile]
      exact hx
    rcases List.mem_append.mp hx2 with h1 | h2
    · exact List.mem_takeWhile_imp h1
    · exact h x (List.mem_reverse.mpr h2)
  · intro h x hx
    exact h x ((List.dropWhile_sublist isWs).subset (List.mem_reverse.mp hx))

theorem joinSp_length_le : ∀ ws : List (List Char), (joinSp ws).length ≤ lenEst ws
  | [] => by simp [joinSp, lenEst]
  | [w] => by simp [joinSp, lenEst]
  | w :: w2 :: ws => by
    have h := joinSp_length_le (w2 :: ws)
    simp [joinSp, lenEst] at h ⊢
    omega

theorem pyTailSlice_length_le (l : List Char) (k : Nat) (hk : k ≠ 0) :
    (pyTailSlice l k).length ≤ k := by
  simp [pyTailSlice, hk]
  omega

theorem pySplitGo_lenEst : ∀ (l acc : List Char),
    lenEst (pySplitGo l acc) ≤ 2 * l.length + (if acc.isEmpty then 0 else acc.length + 1) := by
  intro l
  induction l with
  | nil =>
    intro acc
    cases acc with
    | nil => simp [pySplitGo, lenEst]
    | cons a as => simp [pySplitGo, lenEst]
  | cons c rest ih =>
    intro acc
    by_cases h : isWs c = true
    · cases acc with
      | nil =>
        have h0 := ih []
        simp [pySplitGo, h, lenEst] at h0 ⊢
        omega
      | cons a as =>
        have h0 := ih []
        simp [pySplitGo, h, lenEst] at h0 ⊢
        omega
    · have h0 := ih (c :: acc)
      cases acc with
      | nil =>
        simp [pySplitGo, h, lenEst] at h0 ⊢
        omega
      | cons a as =>
        simp [pySplitGo, h, lenEst] at h0 ⊢
        omega

theorem lenEst_pySplit_le (l : List Char) : lenEst (pySplit l) ≤ 2 * l.length := by
  have h := pySplitGo_lenEst l []
  simpa [pySplit] using h

/-- Invariant of the `_chunk_text` loop: the running `length` field is the
estimate of the current window, it never exceeds the budget, and every
emitted chunk is within the budget. -/
def ChunkInv (maxc : Nat) (st : ChunkSt) : Prop :=
  st.length = lenEst st.current ∧ st.length ≤ maxc ∧ ∀ c ∈ st.chunks, c.length ≤ maxc

theorem chunkStep_inv (maxc ov : Nat) (hov : 0 < ov) (st : ChunkSt) (w : List Char)
    (hw : w.length + 1 + 2 * ov ≤ maxc) (h : ChunkInv maxc st) :
    ChunkInv maxc (chunkStep maxc ov st w) := by
  obtain ⟨hlen, hbound, hchunks⟩ := h
  unfold chunkStep
  by_cases hc : st.length + w.length + 1 > maxc
  · rw [if_pos hc]
    have hslice := pyTailSlice_length_le (joinSp st.current) ov (by omega)
    have hback := lenEst_pySplit_le (pyTailSlice (joinSp st.current) ov)
    refine ⟨?_, ?_, ?_⟩
    · simp [lenEst]
    · simp only [lenEst] at hback ⊢
      omega
    · intro c hcm
      rcases List.mem_append.mp hcm with h1 | h2
      · exact hchunks c h1
      · rw [List.mem_singleton] at h2
        subst h2
        calc (joinSp st.current).length ≤ lenEst st.current := joinSp_length_le _
          _ = st.length := hlen.symm
          _ ≤ maxc := hbound
  · rw [if_neg hc]
    refine ⟨?_, ?_, hchunks⟩
    · simp [lenEst, hlen]
    · show st.length + (w.length + 1) ≤ maxc
      omega

theorem foldl_chunkStep_inv (maxc ov : Nat) (hov : 0 < ov) :
    ∀ (ws : List (List Char)) (st : ChunkSt),
      (∀ w ∈ ws, w.length + 1 + 2 * ov ≤ maxc) → ChunkInv maxc st →
      ChunkInv maxc (ws.foldl (chunkStep maxc ov) st) := by
  intro ws
  induction ws with
  | nil => intro st _ h; simpa using h
  | cons w ws ih =>
    intro st hws h
    simp only [List.foldl_cons]
    exact ih _ (fun x hx => hws x (List.mem_cons_of_mem w hx))
      (chunkStep_inv maxc ov hov st w (hws w (List.mem_cons_self w ws)) h)

/-- Claim C7 amended: every chunk `_chunk_text` produces is non-empty —
unconditionally, for every input and every parameter choice; the chunk
length stays within `max_chars` provided `overlap` is positive and every
whitespace-delimited input token `w` satisfies
`len(w) + 1 + 2*overlap ≤ max_chars` — a single longer token produces a
chunk that exceeds the budget, so the unconditional bound of the claim
fails. -/
theorem chunks_nonempty_and_bounded (text : String) (maxc ov : Nat) :
    (∀ c ∈ _chunk_text text maxc ov, c ≠ "") ∧
    (0 < ov → (∀ w ∈ pySplit text.data, w.length + 1 + 2 * ov ≤ maxc) →
      ∀ c ∈ _chunk_text text maxc ov, c.length ≤ maxc) := by
  constructor
  · intro c hc
    unfold _chunk_text at hc
    obtain ⟨c₁, hc₁, rfl⟩ := List.mem_map.mp hc
    obtain ⟨c₀, hc₀, rfl⟩ := List.mem_map.mp hc₁
    obtain ⟨hc₀mem, hfilt⟩ := List.mem_filter.mp hc₀
    have hne : pyStrip c₀ ≠ [] := by
      intro habs
      rw [habs] at hfilt
      simp at hfilt
    intro habs
    have hdata : pyStrip (collapseWs c₀) = [] := congrArg String.data habs
    have hall : ∀ x ∈ collapseWs c₀, isWs x := (pyStrip_eq_nil_iff _).mp hdata
    have hall2 : (collapseWs c₀).all isWs = true := List.all_eq_true.mpr hall
    have hall3 : c₀.all isWs = true := by
      rw [← collapseAux_all_isWs false c₀]
      exact hall2
    exact hne ((pyStrip_eq_nil_iff c₀).mpr (List.all_eq_true.mp hall3))
  · intro hov hw c hc
    unfold _chunk_text at hc
    obtain ⟨c₁, hc₁, rfl⟩ := List.mem_map.mp hc
    obtain ⟨c₀, hc₀, rfl⟩ := List.mem_map.mp hc₁
    obtain ⟨hc₀mem, hfilt⟩ := List.mem_filter.mp hc₀
    have hinv := foldl_chunkStep_inv maxc ov hov (pySplit text.data) ⟨[], [], 0⟩ hw
      ⟨by simp [lenEst], Nat.zero_le maxc, by simp⟩
    set stf := (pySplit text.data).foldl (chunkStep maxc ov) (⟨[], [], 0⟩ : ChunkSt) with hstf
    have hc₀len : c₀.length ≤ maxc := by
      by_cases hcur : stf.current.isEmpty = true
      · rw [if_pos hcur] at hc₀mem
        exact hinv.2.2 c₀ hc₀mem
      · rw [if_neg hcur] at hc₀mem
        rcases List.mem_append.mp hc₀mem with h1 | h2
        · exact hinv.2.2 c₀ h1
        · rw [List.mem_singleton] at h2
          subst h2
          calc (joinSp stf.current).length ≤ lenEst stf.current := joinSp_length_le _
            _ = stf.length := hinv.1.symm
            _ ≤ maxc := hinv.2.1
    have h1 : (pyStrip (collapseWs c₀)).length ≤ (collapseWs c₀).length := pyStrip_length_le _
    have h2 : (collapseWs c₀).length ≤ c₀.length := collapseAux_length false c₀
    have h3 : (String.mk (pyStrip (collapseWs c₀))).length = (pyStrip (collapseWs c₀)).length :=
      rfl
    omega

theorem chunks_nonempty_and_bounded_witness :
    (("aaaaaaaaaa" : String) ≠ "" ∧ ("a b c d e f g h" : String) ≠ "") ∧
    ("a b c d e f g h" : String).length ≤ 1200 :=
  ⟨⟨(chunks_nonempty_and_bounded "aaaaaaaaaa" 5 0).1 "aaaaaaaaaa" (by decide),
    (chunks_nonempty_and_bounded "a b c d e f g h" 1200 150).1 "a b c d e f g h" (by decide)⟩,
   (chunks_nonempty_and_bounded "a b c d e f g h" 1200 150).2 (by decide) (by decide)
     "a b c d e f g h" (by decide)⟩

/-- Claim C7 as stated is false in its length half: with the maximum
character count configured to 5 (and overlap 2), a single ten-character
token yields the chunk "aaaaaaaaaa" of length 10, exceeding the configured
maximum. -/
theorem chunk_bound_counterexample :
    _chunk_text "aaaaaaaaaa" 5 2 = ["aaaaaaaaaa"] ∧
    ¬ ("aaaaaaaaaa" : String).length ≤ 5 :=
  ⟨by decide, by decide⟩
